import Mathlib

/-!
Verification development for the streaming session core of the
mercyappbuilder frontend: the frame decoder (src/frontend/src/lib/api.ts,
streamMessage), the conversation-state reducer and session cache operations
(src/frontend/src/hooks/useSession.ts), and the resilient request client
(the retrying fetchApi variant of the API client).
-/

namespace Mercy

/-! ## Frame decoder (api.ts, streamMessage)

The source keeps a text buffer, appends each decoded chunk, splits the
buffer on the blank-line delimiter, retains the trailing fragment, and
for each complete record strips the marker and JSON-parses the rest,
silently dropping records that fail to parse.  JSON parsing is modelled
as an abstract function into an arbitrary event type. -/

/-- Leftmost split of a character stream on the two-character blank-line
delimiter, returning the complete records together with the retained
trailing fragment.  This is the pair of the source expressions
buffer.split of two newlines and the popped final element. -/
def splitRecords : List Char → List (List Char) × List Char
  | [] => ([], [])
  | '\n' :: '\n' :: rest =>
    let pr := splitRecords rest
    ([] :: pr.1, pr.2)
  | c :: rest =>
    match splitRecords rest with
    | ([], buf) => ([], c :: buf)
    | (r :: rs, buf) => ((c :: r) :: rs, buf)

/-- Whether a character stream contains the blank-line delimiter. -/
def hasNN : List Char → Bool
  | '\n' :: '\n' :: _ => true
  | _ :: rest => hasNN rest
  | [] => false

/-- Whether a record starts with the six-character event-data marker. -/
def hasDataMarker : List Char → Bool
  | 'd' :: 'a' :: 't' :: 'a' :: ':' :: ' ' :: _ => true
  | _ => false

/-- Per-record handling of the source loop body: records carrying the
marker have it stripped and are parsed; records without the marker, and
records whose parse fails, are dropped. -/
def frameParse (parse : List Char → Option ε) (line : List Char) : Option ε :=
  if hasDataMarker line then parse (line.drop 6) else none

/-- State of the streaming decoder loop: events emitted so far and the
retained trailing buffer. -/
structure DecoderState (ε : Type) where
  events : List ε
  buffer : List Char
deriving DecidableEq

/-- Processing of one incoming chunk: append to the buffer, split off the
complete records, emit their parses in order, retain the fragment. -/
def feedChunk (parse : List Char → Option ε) (st : DecoderState ε)
    (chunk : List Char) : DecoderState ε :=
  let pr := splitRecords (st.buffer ++ chunk)
  ⟨st.events ++ pr.1.filterMap (frameParse parse), pr.2⟩

/-- Events produced by the whole read loop on a chunk sequence.  When the
reader reports end of stream the loop breaks, so the final buffer is
discarded without being parsed. -/
def decodeChunks (parse : List Char → Option ε) (chunks : List (List Char)) :
    List ε :=
  (chunks.foldl (feedChunk parse) ⟨[], []⟩).events

/-- A frame stream assembled from complete delimiter-terminated records
followed by a trailing fragment that is never terminated. -/
def mkStream (trailing : List Char) : List (List Char) → List Char
  | [] => trailing
  | r :: rs => r ++ '\n' :: '\n' :: mkStream trailing rs

/-! ## Data model (types/index.ts)

Structured tool input is an opaque JSON value from the point of view of
all the verified code: it is written, copied and re-parsed but never
inspected.  The development is therefore parametric in the type J of
parsed JSON objects and in the JSON parse function. -/

/-- Role of a chat message. -/
inductive Role where
  | user
  | assistant
deriving DecidableEq

/-- Running status of a tool invocation. -/
inductive ToolStatus where
  | running
  | done
deriving DecidableEq

/-- One tool invocation of the assistant, mirroring the ToolUse interface:
tool name, parsed structured input, optional result string, optional id,
optional raw accumulating input buffer, optional status. -/
structure ToolUse (J : Type) where
  tool : String
  input : J
  result : Option String
  id : Option String
  inputRaw : Option String
  status : Option ToolStatus
deriving DecidableEq

/-- One chat message, mirroring the ChatMessage interface.  Optional
fields of the interface are options here; an absent field is none. -/
structure ChatMessage (J : Type) where
  role : Role
  content : String
  timestamp : String
  tool_use : Option (List (ToolUse J))
  thinking : Option String
  isStreaming : Option Bool
  currentTool : Option String
  lastHeartbeat : Option Nat
  responseLength : Option Nat
  toolCount : Option Nat
deriving DecidableEq

/-- A pending tool-permission request as stored in the permission queue. -/
structure PermissionRequest (J : Type) where
  request_id : String
  tool_name : String
  tool_input : J
  suggestions : List String
  created_at : String
deriving DecidableEq

/-- The decoded stream events consumed by the send loop, one constructor
per chunk type the loop distinguishes. -/
inductive StreamEvent (J : Type) where
  | text (content : String)
  | text_delta (content : String)
  | thinking_start
  | thinking_delta (content : String)
  | tool_use_start (tool : String) (id : String)
  | tool_input_delta (content : String) (tool_id : Option String)
  | tool_use_end
  | tool_result (content : String)
  | tool_use (t : ToolUse J)
  | done
  | error (content : String)
  | permission_request (req : PermissionRequest J)
  | heartbeat (response_length : Nat) (tool_count : Nat)
deriving DecidableEq

/-- Ambient parameters of the event fold: the JSON parse used for raw
tool input, the empty JSON object, and the current clock value. -/
structure FoldCtx (J : Type) where
  parse : String → Option J
  emptyObj : J
  now : Nat

/-- Transcription of updateLastAssistantMessage (useSession.ts): an empty
transcript and a transcript whose last message is not from the assistant
are returned unchanged; otherwise the last message is replaced by its
update. -/
def updateLastAssistantMessage (messages : List (ChatMessage J))
    (updater : ChatMessage J → ChatMessage J) : List (ChatMessage J) :=
  match messages.getLast? with
  | none => messages
  | some lastMessage =>
    if lastMessage.role = Role.assistant then
      messages.dropLast ++ [updater lastMessage]
    else messages

/-- Replacement of the positionally last tool entry, mirroring the write
to the index length minus one in the tool_result handler. -/
def setResultOnLast (r : String) : List (ToolUse J) → List (ToolUse J)
  | [] => []
  | [tu] => [{ tu with result := some r }]
  | tu :: tus => tu :: setResultOnLast r tus

/-- Update of the first list entry satisfying a test, mirroring findIndex
followed by an assignment at the found index; without a match the list is
returned unchanged. -/
def updateFirstMatching (p : α → Bool) (f : α → α) : List α → List α
  | [] => []
  | x :: xs => if p x then f x :: xs else x :: updateFirstMatching p f xs

/-- The tool_input_delta update of one tool entry: append the delta to the
raw buffer, then opportunistically re-parse the whole buffer, keeping the
previous structured input when the parse fails. -/
def applyInputDelta (parse : String → Option J) (d : String)
    (tu : ToolUse J) : ToolUse J :=
  let raw := tu.inputRaw.getD "" ++ d
  { tu with
    inputRaw := some raw,
    input := match parse raw with
             | some j => j
             | none => tu.input }

/-- The per-event update applied to the last assistant message, one case
per handler branch of the send loop in useSession.ts.  The error and
permission_request branches do not touch the transcript and are identity
here; applyEvent routes around them. -/
def updaterOf (ctx : FoldCtx J) : StreamEvent J → ChatMessage J → ChatMessage J
  | .text c => fun m => { m with content := c }
  | .text_delta d => fun m => { m with content := m.content ++ d }
  | .thinking_start => fun m => { m with thinking := some "" }
  | .thinking_delta d => fun m => { m with thinking := some (m.thinking.getD "" ++ d) }
  | .tool_use_start tool id => fun m =>
    { m with
      tool_use := some (m.tool_use.getD [] ++
        [⟨tool, ctx.emptyObj, none, some id, some "", some ToolStatus.running⟩]),
      currentTool := some tool }
  | .tool_input_delta d tid => fun m =>
    match m.tool_use with
    | none => m
    | some [] => m
    | some (tu :: tus) =>
      { m with tool_use := some (updateFirstMatching (fun t => t.id == tid)
          (applyInputDelta ctx.parse d) (tu :: tus)) }
  | .tool_use_end => fun m => { m with currentTool := some "" }
  | .tool_result r => fun m =>
    match m.tool_use with
    | none => m
    | some [] => m
    | some (tu :: tus) =>
      { m with tool_use := some (setResultOnLast r (tu :: tus)) }
  | .tool_use t => fun m => { m with tool_use := some (m.tool_use.getD [] ++ [t]) }
  | .done => fun m => { m with isStreaming := some false }
  | .error _ => fun m => m
  | .permission_request _ => fun m => m
  | .heartbeat rl tc => fun m =>
    { m with
      lastHeartbeat := some ctx.now,
      responseLength := some rl,
      toolCount := some tc }

/-- Effect of one decoded event on the cached transcript, one case per
branch of the if chain of the send loop: the error and permission_request
branches leave the transcript alone, every other branch rewrites the last
assistant message through its updater. -/
def applyEvent (ctx : FoldCtx J) (t : List (ChatMessage J)) :
    StreamEvent J → List (ChatMessage J)
  | .text c => updateLastAssistantMessage t (updaterOf ctx (.text c))
  | .text_delta d => updateLastAssistantMessage t (updaterOf ctx (.text_delta d))
  | .thinking_start => updateLastAssistantMessage t (updaterOf ctx .thinking_start)
  | .thinking_delta d => updateLastAssistantMessage t (updaterOf ctx (.thinking_delta d))
  | .tool_use_start tool id =>
    updateLastAssistantMessage t (updaterOf ctx (.tool_use_start tool id))
  | .tool_input_delta d tid =>
    updateLastAssistantMessage t (updaterOf ctx (.tool_input_delta d tid))
  | .tool_use_end => updateLastAssistantMessage t (updaterOf ctx .tool_use_end)
  | .tool_result r => updateLastAssistantMessage t (updaterOf ctx (.tool_result r))
  | .tool_use tu => updateLastAssistantMessage t (updaterOf ctx (.tool_use tu))
  | .done => updateLastAssistantMessage t (updaterOf ctx .done)
  | .error _ => t
  | .permission_request _ => t
  | .heartbeat rl tc => updateLastAssistantMessage t (updaterOf ctx (.heartbeat rl tc))

/-! ## Session cache operations (useSession.ts) -/

/-- The state the send loop maintains for one session: the cached
transcript, the streaming flag, the surfaced error value, and the pending
permission queue. -/
structure SessState (J : Type) where
  cache : List (ChatMessage J)
  streaming : Bool
  errorMsg : Option String
  pendingPerms : List (PermissionRequest J)
deriving DecidableEq

/-- Initial state of a fresh session. -/
def initSess (J : Type) : SessState J := ⟨[], false, none, []⟩

/-- The user message appended at the start of a send. -/
def userMsg (content ts : String) : ChatMessage J :=
  ⟨Role.user, content, ts, none, none, none, none, none, none, none⟩

/-- The assistant placeholder appended at the start of a send: empty
content and thinking, empty tool list, streaming flag raised. -/
def placeholderMsg (ts : String) : ChatMessage J :=
  ⟨Role.assistant, "", ts, some [], some "", some true, none, none, none, none⟩

/-- Start of sendMessageStream: raise the streaming flag, clear the error,
append the user message and the assistant placeholder. -/
def startSendOp (content ts1 ts2 : String) (s : SessState J) : SessState J :=
  { s with
    streaming := true,
    errorMsg := none,
    cache := s.cache ++ [userMsg content ts1, placeholderMsg ts2] }

/-- Folding of one decoded event into the session state: an error event
surfaces its message, a permission_request event joins the queue, every
other event is folded into the cached transcript. -/
def foldChunkOp (ctx : FoldCtx J) (s : SessState J) : StreamEvent J → SessState J
  | .error c => { s with errorMsg := some c }
  | .permission_request r => { s with pendingPerms := s.pendingPerms ++ [r] }
  | .text c => { s with cache := applyEvent ctx s.cache (.text c) }
  | .text_delta d => { s with cache := applyEvent ctx s.cache (.text_delta d) }
  | .thinking_start => { s with cache := applyEvent ctx s.cache .thinking_start }
  | .thinking_delta d => { s with cache := applyEvent ctx s.cache (.thinking_delta d) }
  | .tool_use_start tool id =>
    { s with cache := applyEvent ctx s.cache (.tool_use_start tool id) }
  | .tool_input_delta d tid =>
    { s with cache := applyEvent ctx s.cache (.tool_input_delta d tid) }
  | .tool_use_end => { s with cache := applyEvent ctx s.cache .tool_use_end }
  | .tool_result r => { s with cache := applyEvent ctx s.cache (.tool_result r) }
  | .tool_use tu => { s with cache := applyEvent ctx s.cache (.tool_use tu) }
  | .done => { s with cache := applyEvent ctx s.cache .done }
  | .heartbeat rl tc => { s with cache := applyEvent ctx s.cache (.heartbeat rl tc) }

/-- Folding of a whole event sequence, one cache read-modify-write per
event as in the source loop. -/
def foldChunks (ctx : FoldCtx J) (s : SessState J)
    (events : List (StreamEvent J)) : SessState J :=
  events.foldl (foldChunkOp ctx) s

/-- The catch branch of sendMessageStream for a genuine (non-abort)
failure, followed by the finally block: surface the message, remove the
last two transcript entries when at least two are present, lower the
streaming flag. -/
def streamFailOp (msg : String) (s : SessState J) : SessState J :=
  { s with
    errorMsg := some msg,
    streaming := false,
    cache := if 2 ≤ s.cache.length then s.cache.dropLast.dropLast else s.cache }

/-- The abort path of the same catch plus the finally block: no transcript
change, streaming flag lowered. -/
def streamAbortEndOp (s : SessState J) : SessState J :=
  { s with streaming := false }

/-- Transcription of stopStreaming: lower the streaming flag and force the
last assistant message out of streaming without touching its content. -/
def stopStreamingOp (s : SessState J) : SessState J :=
  { s with
    streaming := false,
    cache := updateLastAssistantMessage s.cache
      (fun m => { m with isStreaming := some false }) }

/-- Holds when a message is marked as streaming. -/
def isStreamingTrue (m : ChatMessage J) : Prop := m.isStreaming = some true

/-- The transcript invariant of the spec: only the final message may be
marked streaming, hence at most one message is. -/
def streamInv (t : List (ChatMessage J)) : Prop :=
  ∀ m ∈ t.dropLast, ¬ isStreamingTrue m

instance (m : ChatMessage J) : Decidable (isStreamingTrue m) := by
  unfold isStreamingTrue; infer_instance

instance (t : List (ChatMessage J)) : Decidable (streamInv t) := by
  unfold streamInv; infer_instance

/-! ## Selection-versus-stream interleaving (useChat session-change effect)

The session-change effect consults the streaming flag once, at selection
time: a streaming session is shown from the cache with no fetch, while a
non-streaming session always issues a history fetch whose continuation
overwrites the cache when the response arrives.  The event-loop steps of
one session are modelled as atomic operations on the state below. -/

/-- Per-session state visible to the selection effect: the cached
transcript, the global streaming flag, and an in-flight history fetch
carrying the response it will deliver. -/
structure UiState (J : Type) where
  cache : List (ChatMessage J)
  streamingFlag : Bool
  fetchPending : Option (List (ChatMessage J))
deriving DecidableEq

/-- Initial UI state: nothing cached, not streaming, no fetch in flight. -/
def uiInit (J : Type) : UiState J := ⟨[], false, none⟩

/-- Atomic event-loop steps affecting one session: selecting it (the
history response the server would return is carried by the step), the
arrival of an issued fetch, the synchronous start of a stream turn, and
the folding of one stream event. -/
inductive UiOp (J : Type) where
  | select (response : List (ChatMessage J))
  | fetchArrive
  | streamBegin (content ts1 ts2 : String)
  | streamEvt (e : StreamEvent J)

/-- One step of the modelled event loop.  Selection of a streaming
session reads the cache and issues nothing; otherwise a fetch is issued.
A fetch arrival overwrites the cache unconditionally, exactly as the
then-continuation of getHistory does. -/
def uiStep (ctx : FoldCtx J) (s : UiState J) : UiOp J → UiState J
  | .select response =>
    if s.streamingFlag then s else { s with fetchPending := some response }
  | .fetchArrive =>
    match s.fetchPending with
    | some response => { s with cache := response, fetchPending := none }
    | none => s
  | .streamBegin content ts1 ts2 =>
    { s with
      streamingFlag := true,
      cache := s.cache ++ [userMsg content ts1, placeholderMsg ts2] }
  | .streamEvt e => { s with cache := applyEvent ctx s.cache e }

/-- Whether executing the given step from the given state makes a history
fetch land while a stream for the same session is in flight. -/
def fetchRaces (s : UiState J) : UiOp J → Bool
  | .fetchArrive => s.fetchPending.isSome && s.streamingFlag
  | _ => false

/-- Whether some step of a trace makes a history fetch land during an
in-flight stream. -/
def traceHasRace (ctx : FoldCtx J) : UiState J → List (UiOp J) → Bool
  | _, [] => false
  | s, op :: ops => fetchRaces s op || traceHasRace ctx (uiStep ctx s op) ops

/-! ## Resilient request client (fetchApi of the retrying API client) -/

/-- Default retry budget of additional attempts. -/
def MAX_RETRIES : Nat := 2

/-- The typed error thrown by the client: message, http status (0 is the
network sentinel, 408 the timeout sentinel), retryable classification. -/
structure ApiError where
  message : String
  status : Nat
  isRetryable : Bool
deriving DecidableEq

/-- Outcome of one underlying fetch attempt as seen by the loop body: a
decoded success, a non-ok response with status and optional error detail,
an abort fired by the per-attempt timeout, or a transport failure. -/
inductive AttemptOutcome (R : Type) where
  | success (body : R)
  | httpError (status : Nat) (detail : Option String)
  | abortTimeout
  | networkFailure (msg : String)

deriving instance DecidableEq for Except

/-- Result of a whole call: the outcome, the backoff delays awaited
between attempts in order, and the number of attempts made. -/
structure FetchRun (R : Type) where
  outcome : Except ApiError R
  delays : List Nat
  attemptsMade : Nat
deriving DecidableEq

/-- Transcription of the retry loop of fetchApi.  attempt is the current
index, left the number of attempts still allowed after it.  A non-ok
response is classified retryable exactly for statuses at least 500 and
for 429; a retryable classification with budget left backs off for
2 to the attempt times 500 time-units and retries; an abort from the
per-attempt timeout is thrown immediately as the timeout error; a
transport failure retries until the budget is exhausted and is then
thrown as the network error. -/
def runAttempts (f : Nat → AttemptOutcome R) (attempt left : Nat) : FetchRun R :=
  match f attempt with
  | .success b => ⟨.ok b, [], 1⟩
  | .httpError st detail =>
    let e : ApiError :=
      ⟨detail.getD ("HTTP " ++ toString st), st, decide (500 ≤ st) || st == 429⟩
    match left with
    | 0 => ⟨.error e, [], 1⟩
    | left' + 1 =>
      if e.isRetryable then
        let r := runAttempts f (attempt + 1) left'
        ⟨r.outcome, 2 ^ attempt * 500 :: r.delays, r.attemptsMade + 1⟩
      else ⟨.error e, [], 1⟩
  | .abortTimeout => ⟨.error ⟨"Request timeout", 408, true⟩, [], 1⟩
  | .networkFailure msg =>
    match left with
    | 0 => ⟨.error ⟨if msg = "" then "Network error" else msg, 0, false⟩, [], 1⟩
    | left' + 1 =>
      let r := runAttempts f (attempt + 1) left'
      ⟨r.outcome, 2 ^ attempt * 500 :: r.delays, r.attemptsMade + 1⟩

/-- A whole call through the client with the default retry budget. -/
def fetchApi (f : Nat → AttemptOutcome R) : FetchRun R :=
  runAttempts f 0 MAX_RETRIES

/-! ## Concrete fixtures for witnesses -/

/-- A concrete fold context over Nat-coded JSON objects whose parse
always fails (raw accumulation still in progress). -/
def ctxN : FoldCtx Nat := ⟨fun _ => none, 0, 0⟩

/-- The assistant placeholder after tool_use_start events for tools alpha
(id t1, no result) and beta (id t2, result as given). -/
def twoToolsMsg (ctx : FoldCtx J) (res2 : Option String) : ChatMessage J :=
  ⟨Role.assistant, "", "0",
   some [⟨"alpha", ctx.emptyObj, none, some ("t1"), some (""), some ToolStatus.running⟩,
         ⟨"beta", ctx.emptyObj, res2, some ("t2"), some (""), some ToolStatus.running⟩],
   some (""), some true, some ("beta"), none, none, none⟩

/-- An assistant message carrying exactly one running tool, alpha, with
id t1. -/
def oneToolMsg : ChatMessage Nat :=
  ⟨Role.assistant, "", "0",
   some [⟨"alpha", 0, none, some ("t1"), some (""), some ToolStatus.running⟩],
   some (""), some true, none, none, none, none⟩

/-! ## Decoder lemmas -/

/-- When a stream splits into no complete record, the retained fragment is
the whole stream. -/
theorem splitRecords_records_nil (s : List Char) :
    (splitRecords s).1 = [] → (splitRecords s).2 = s := by
  induction s using splitRecords.induct with
  | case1 => intro _; rfl
  | case2 rest ih =>
    rw [splitRecords.eq_2]
    intro h
    exact absurd h (by simp)
  | case3 c rest hne buf heq ih =>
    rw [splitRecords.eq_3 c rest hne, heq]
    intro _
    have h1 : (splitRecords rest).1 = [] := by rw [heq]
    have h2 := ih h1
    rw [heq] at h2
    simpa using h2
  | case4 c rest hne r rs buf heq ih =>
    rw [splitRecords.eq_3 c rest hne, heq]
    intro h
    exact absurd h (by simp)

/-- The retained fragment never contains the blank-line delimiter. -/
theorem hasNN_splitRecords_snd (s : List Char) :
    hasNN (splitRecords s).2 = false := by
  induction s using splitRecords.induct with
  | case1 => rfl
  | case2 rest ih => rw [splitRecords.eq_2]; exact ih
  | case3 c rest hne buf heq ih =>
    have hb : buf = rest := by
      have h2 := splitRecords_records_nil rest (by rw [heq])
      rw [heq] at h2
      simpa using h2
    have hrest : hasNN rest = false := by
      have h3 := ih
      rw [heq] at h3
      simpa [hb] using h3
    rw [splitRecords.eq_3 c rest hne, heq]
    show hasNN (c :: buf) = false
    rw [hb, hasNN.eq_2 c rest hne]
    exact hrest
  | case4 c rest hne r rs buf heq ih =>
    rw [splitRecords.eq_3 c rest hne, heq]
    have h3 := ih
    rw [heq] at h3
    exact h3

/-- A stream free of the delimiter splits into no record, retained whole. -/
theorem splitRecords_of_hasNN_eq_false (s : List Char) :
    hasNN s = false → splitRecords s = ([], s) := by
  induction s using splitRecords.induct with
  | case1 => intro _; rfl
  | case2 rest ih =>
    intro h
    rw [hasNN.eq_1] at h
    exact absurd h (by simp)
  | case3 c rest hne buf heq ih =>
    intro h
    rw [hasNN.eq_2 c rest hne] at h
    have := ih h
    rw [heq] at this
    have hb : buf = rest := by simpa using this
    rw [splitRecords.eq_3 c rest hne, heq, hb]
  | case4 c rest hne r rs buf heq ih =>
    intro h
    rw [hasNN.eq_2 c rest hne] at h
    have := ih h
    rw [heq] at this
    exact absurd this (by simp)

/-- Splitting distributes over appending more input: the records found in
the first part stay records, and the scan resumes on the retained
fragment joined with the new input. -/
theorem splitRecords_append (s t : List Char) :
    splitRecords (s ++ t) =
      ((splitRecords s).1 ++ (splitRecords ((splitRecords s).2 ++ t)).1,
       (splitRecords ((splitRecords s).2 ++ t)).2) := by
  induction s using splitRecords.induct with
  | case1 => simp [splitRecords.eq_1]
  | case2 rest ih =>
    simp only [List.cons_append, splitRecords.eq_2, ih]
  | case3 c rest hne buf heq ih =>
    have hb : buf = rest := by
      have h2 := splitRecords_records_nil rest (by rw [heq])
      rw [heq] at h2
      simpa using h2
    rw [splitRecords.eq_3 c rest hne, heq, hb]
    simp [List.cons_append]
  | case4 c rest hne r rs buf heq ih =>
    have hrest_ne : rest ≠ [] := by
      intro h0
      rw [h0] at heq
      simp [splitRecords.eq_1] at heq
    have hne2 : ∀ (r1 : List Char), c = '\n' → rest ++ t = '\n' :: r1 → False := by
      intro r1 hc hrt
      cases rest with
      | nil => exact hrest_ne rfl
      | cons d ds =>
        rw [List.cons_append] at hrt
        have hd : d = '\n' := by injection hrt
        exact hne ds hc (by rw [hd])
    rw [heq] at ih
    rw [List.cons_append, splitRecords.eq_3 c (rest ++ t) hne2, ih,
      splitRecords.eq_3 c rest hne, heq]
    simp [List.cons_append]

/-- Feeding two chunks in sequence equals feeding their concatenation. -/
theorem feedChunk_append (parse : List Char → Option ε) (st : DecoderState ε)
    (a b : List Char) :
    feedChunk parse (feedChunk parse st a) b = feedChunk parse st (a ++ b) := by
  simp only [feedChunk]
  rw [← List.append_assoc, splitRecords_append (st.buffer ++ a) b]
  simp [List.filterMap_append, List.append_assoc]

/-- Feeding an empty chunk changes nothing once the buffer is a genuine
retained fragment (free of the delimiter). -/
theorem feedChunk_nil (parse : List Char → Option ε) (st : DecoderState ε)
    (h : hasNN st.buffer = false) : feedChunk parse st [] = st := by
  simp [feedChunk, splitRecords_of_hasNN_eq_false _ h]

/-- Folding a chunk list equals feeding the joined stream in one chunk. -/
theorem foldl_feedChunk (parse : List Char → Option ε) (chunks : List (List Char)) :
    ∀ st : DecoderState ε, hasNN st.buffer = false →
      chunks.foldl (feedChunk parse) st = feedChunk parse st chunks.flatten := by
  induction chunks with
  | nil =>
    intro st h
    simp [feedChunk_nil parse st h]
  | cons a cs ih =>
    intro st h
    rw [List.foldl_cons,
      ih (feedChunk parse st a) (hasNN_splitRecords_snd (st.buffer ++ a)),
      feedChunk_append]
    simp

/-- A complete delimiter-terminated record at the front of a stream is
split off whole whenever the record itself is delimiter-free and does not
end in a newline that could fuse with the delimiter. -/
theorem splitRecords_record_cons (rec t : List Char) (h1 : hasNN rec = false)
    (h2 : rec.getLast? ≠ some '\n') :
    splitRecords (rec ++ '\n' :: '\n' :: t) =
      (rec :: (splitRecords t).1, (splitRecords t).2) := by
  induction rec with
  | nil => simp [splitRecords.eq_2]
  | cons c r ih =>
    have hne : ∀ (r1 : List Char), c = '\n' → r ++ '\n' :: '\n' :: t = '\n' :: r1 → False := by
      intro r1 hc happ
      cases r with
      | nil =>
        rw [List.getLast?_singleton] at h2
        exact h2 (by rw [hc])
      | cons d ds =>
        rw [List.cons_append] at happ
        have hd : d = '\n' := by injection happ
        rw [hc, hd, hasNN.eq_1] at h1
        simp at h1
    have h1a : hasNN r = false := by
      cases r with
      | nil => rfl
      | cons d ds =>
        by_cases hc : c = '\n'
        · by_cases hd : d = '\n'
          · rw [hc, hd, hasNN.eq_1] at h1
            simp at h1
          · rw [hasNN.eq_2 c (d :: ds)
              (by intro r1 _ hx; exact hd (by injection hx))] at h1
            exact h1
        · rw [hasNN.eq_2 c (d :: ds) (by intro r1 hcc _; exact hc hcc)] at h1
          exact h1
    have h2a : r.getLast? ≠ some '\n' := by
      cases r with
      | nil => simp
      | cons d ds =>
        rw [List.getLast?_cons_cons] at h2
        exact h2
    rw [List.cons_append, splitRecords.eq_3 c (r ++ '\n' :: '\n' :: t) hne,
      ih h1a h2a]

/-- A stream assembled from terminated records plus an unterminated
trailing fragment splits exactly into those records, the fragment
retained. -/
theorem splitRecords_mkStream (recs : List (List Char)) (trailing : List Char)
    (hrecs : ∀ p ∈ recs, hasNN p = false ∧ p.getLast? ≠ some '\n')
    (ht : hasNN trailing = false) :
    splitRecords (mkStream trailing recs) = (recs, trailing) := by
  induction recs with
  | nil => exact splitRecords_of_hasNN_eq_false trailing ht
  | cons r rs ih =>
    obtain ⟨hr1, hr2⟩ := hrecs r (by simp)
    simp only [mkStream]
    rw [splitRecords_record_cons r (mkStream trailing rs) hr1 hr2,
      ih (fun p hp => hrecs p (by simp [hp]))]

/-- C5: the frame decoder is chunk-boundary independent — any two chunk
segmentations of the same underlying character stream produce the same
ordered event sequence, whatever the JSON parse function. -/
theorem streamDecode_chunk_boundary_independent {ε : Type}
    (parse : List Char → Option ε) (cs1 cs2 : List (List Char))
    (h : cs1.flatten = cs2.flatten) :
    decodeChunks parse cs1 = decodeChunks parse cs2 := by
  unfold decodeChunks
  rw [foldl_feedChunk parse cs1 ⟨[], []⟩ rfl,
    foldl_feedChunk parse cs2 ⟨[], []⟩ rfl, h]

/-- Witness for C5: one stream of two marker records cut once inside the
blank-line delimiter and once inside a record payload decodes to the same
event list either way. -/
theorem streamDecode_chunk_boundary_independent_witness :
    List.flatten [['d','a','t','a',':',' ','1','\n'],
        ['\n','d','a','t','a',':',' ','2','\n','\n']] =
      List.flatten [['d','a','t','a',':',' ','1','\n','\n','d'],
        ['a','t','a',':',' ','2','\n','\n']] ∧
    decodeChunks some [['d','a','t','a',':',' ','1','\n'],
        ['\n','d','a','t','a',':',' ','2','\n','\n']] =
      decodeChunks some [['d','a','t','a',':',' ','1','\n','\n','d'],
        ['a','t','a',':',' ','2','\n','\n']] ∧
    decodeChunks some [['d','a','t','a',':',' ','1','\n'],
        ['\n','d','a','t','a',':',' ','2','\n','\n']] = [['1'], ['2']] :=
  ⟨by decide,
   streamDecode_chunk_boundary_independent some _ _ (by decide),
   by decide⟩

/-- C9: a final frame not followed by the blank-line delimiter before the
source closes is never emitted — the decoder output is exactly the parses
of the terminated records, whatever the unterminated trailing fragment
holds. -/
theorem streamDecode_trailing_record_dropped {ε : Type}
    (parse : List Char → Option ε) (recs : List (List Char)) (trailing : List Char)
    (hrecs : ∀ p ∈ recs, hasNN p = false ∧ p.getLast? ≠ some '\n')
    (ht : hasNN trailing = false) :
    decodeChunks parse [mkStream trailing recs] =
      recs.filterMap (frameParse parse) := by
  unfold decodeChunks
  rw [List.foldl_cons, List.foldl_nil]
  simp [feedChunk, splitRecords_mkStream recs trailing hrecs ht]

/-- Witness for C9: a closing stream whose trailing fragment is itself a
complete, parseable marker record still emits only the terminated record
before it. -/
theorem streamDecode_trailing_record_dropped_witness :
    decodeChunks some
        [mkStream ['d','a','t','a',':',' ','2'] [['d','a','t','a',':',' ','1']]] =
      [['1']] ∧
    frameParse some ['d','a','t','a',':',' ','2'] = some ['2'] := by
  constructor
  · rw [streamDecode_trailing_record_dropped some [['d','a','t','a',':',' ','1']]
      ['d','a','t','a',':',' ','2'] (by decide) (by decide)]
    decide
  · decide

/-! ## Reducer lemmas -/

/-- Reattaching the known last element reassembles the list. -/
theorem dropLast_append_of_getLast? (t : List α) (m : α) (h : t.getLast? = some m) :
    t.dropLast ++ [m] = t := by
  have hne : t ≠ [] := by intro h0; rw [h0] at h; simp at h
  have hm : some (t.getLast hne) = some m :=
    (List.getLast?_eq_getLast t hne).symm.trans h
  rw [← Option.some.inj hm, List.dropLast_append_getLast hne]

/-- An update of the last assistant message on a transcript ending in an
assistant message replaces exactly that message. -/
theorem updateLastAssistantMessage_concat (t : List (ChatMessage J))
    (p : ChatMessage J) (f : ChatMessage J → ChatMessage J)
    (hp : p.role = Role.assistant) :
    updateLastAssistantMessage (t ++ [p]) f = t ++ [f p] := by
  unfold updateLastAssistantMessage
  rw [List.getLast?_concat]
  simp [hp, List.dropLast_concat]

/-- Unfolding of the last-assistant update when the last message and its
role are known. -/
theorem updateLastAssistantMessage_eq_of_getLast (t : List (ChatMessage J))
    (m : ChatMessage J) (f : ChatMessage J → ChatMessage J)
    (h1 : t.getLast? = some m) (h2 : m.role = Role.assistant) :
    updateLastAssistantMessage t f = t.dropLast ++ [f m] := by
  unfold updateLastAssistantMessage
  split
  · rename_i hnone
    rw [hnone] at h1
    exact absurd h1 (by simp)
  · rename_i m2 hsome
    rw [hsome] at h1
    have hm : m2 = m := Option.some.inj h1
    subst hm
    simp [h2]

/-- A projection invariant under the updater is invariant under the
last-assistant update of any transcript. -/
theorem map_updateLastAssistantMessage {β : Type} (t : List (ChatMessage J))
    (f : ChatMessage J → ChatMessage J) (g : ChatMessage J → β)
    (hg : ∀ m, g (f m) = g m) :
    (updateLastAssistantMessage t f).map g = t.map g := by
  unfold updateLastAssistantMessage
  split
  · rfl
  · rename_i m hl
    split
    · have hne : t ≠ [] := by intro h0; rw [h0] at hl; simp at hl
      have hm : t.getLast hne = m :=
        Option.some.inj ((List.getLast?_eq_getLast t hne).symm.trans hl)
      calc (t.dropLast ++ [f m]).map g
          = t.dropLast.map g ++ [g (f m)] := by simp
        _ = t.dropLast.map g ++ [g m] := by rw [hg]
        _ = (t.dropLast ++ [m]).map g := by simp
        _ = t.map g := by rw [← hm, List.dropLast_append_getLast hne]
    · rfl

/-- No event updater changes the role of the message it rewrites. -/
theorem updaterOf_role (ctx : FoldCtx J) (e : StreamEvent J) (m : ChatMessage J) :
    (updaterOf ctx e m).role = m.role := by
  obtain ⟨r0, c0, t0, tu0, th0, is0, ct0, lh0, rl0, tc0⟩ := m
  cases e <;> cases tu0 <;> try rfl
  all_goals rename_i l
  all_goals cases l <;> rfl

/-- On a transcript ending in a user message followed by an assistant
message, every event rewrites at most that final assistant message. -/
theorem applyEvent_concat (ctx : FoldCtx J) (e : StreamEvent J)
    (t : List (ChatMessage J)) (u p : ChatMessage J)
    (hp : p.role = Role.assistant) :
    applyEvent ctx (t ++ [u, p]) e = t ++ [u, updaterOf ctx e p] := by
  have hsplit : ∀ q : ChatMessage J, t ++ [u, q] = (t ++ [u]) ++ [q] := by
    intro q; simp
  cases e <;>
    first
      | (simp only [applyEvent]
         rw [hsplit p, updateLastAssistantMessage_concat _ _ _ hp, ← hsplit])
      | (simp only [applyEvent, updaterOf])

/-- Folding any event sequence over a state whose transcript ends in the
appended user message and assistant placeholder only rewrites the
placeholder, which stays an assistant message. -/
theorem foldChunks_cache_shape (ctx : FoldCtx J) (events : List (StreamEvent J)) :
    ∀ (s : SessState J) (t : List (ChatMessage J)) (u p : ChatMessage J),
      p.role = Role.assistant → s.cache = t ++ [u, p] →
      ∃ q : ChatMessage J,
        (foldChunks ctx s events).cache = t ++ [u, q] ∧ q.role = Role.assistant := by
  induction events with
  | nil => intro s t u p hp hc; exact ⟨p, hc, hp⟩
  | cons e es ih =>
    intro s t u p hp hc
    have h1 : (foldChunkOp ctx s e).cache = t ++ [u, updaterOf ctx e p] := by
      cases e <;> simp only [foldChunkOp] <;>
        first
          | (rw [hc]; exact applyEvent_concat ctx _ t u p hp)
          | (rw [hc]; simp only [updaterOf])
    have h2 : (updaterOf ctx e p).role = Role.assistant := by
      rw [updaterOf_role]; exact hp
    exact ih (foldChunkOp ctx s e) t u (updaterOf ctx e p) h2 h1

/-- The last-assistant update of a transcript whose earlier entries are
all unmarked keeps them unmarked. -/
theorem streamInv_updateLast (t : List (ChatMessage J))
    (f : ChatMessage J → ChatMessage J) (h : streamInv t) :
    streamInv (updateLastAssistantMessage t f) := by
  unfold updateLastAssistantMessage
  split
  · exact h
  · split
    · intro x hx
      rw [List.dropLast_concat] at hx
      exact h x hx
    · exact h

/-- The invariant is stable under removing the final entry. -/
theorem streamInv_dropLast (t : List (ChatMessage J)) (h : streamInv t) :
    streamInv t.dropLast := by
  intro x hx
  exact h x (List.dropLast_subset _ hx)

/-- A search-and-update that matches nothing returns the list unchanged. -/
theorem updateFirstMatching_of_no_match (p : α → Bool) (f : α → α)
    (l : List α) (h : ∀ x ∈ l, p x = false) :
    updateFirstMatching p f l = l := by
  induction l with
  | nil => rfl
  | cons x xs ih =>
    show (if p x then f x :: xs else x :: updateFirstMatching p f xs) = x :: xs
    rw [h x (by simp)]
    simp [ih (fun y hy => h y (by simp [hy]))]

/-- Writing the result on the positionally last tool entry replaces
exactly the last list element. -/
theorem setResultOnLast_eq (r : String) (l : List (ToolUse J)) (h : l ≠ []) :
    setResultOnLast r l = l.dropLast ++ [{ l.getLast h with result := some r }] := by
  induction l with
  | nil => exact absurd rfl h
  | cons tu tus ih =>
    cases tus with
    | nil => rfl
    | cons tu2 tus2 =>
      show tu :: setResultOnLast r (tu2 :: tus2) = _
      rw [ih (by simp)]
      simp [List.getLast_cons]

/-! ## Claim theorems -/

/-- C8: folding a heartbeat event leaves every message's content, thinking
and tool list untouched; erasing the three liveness fields of the result
gives back the erased original, so only liveness metadata is updated. -/
theorem heartbeat_updates_liveness_only (ctx : FoldCtx J)
    (t : List (ChatMessage J)) (rl tc : Nat) :
    (applyEvent ctx t (.heartbeat rl tc)).map (fun m => m.content)
        = t.map (fun m => m.content)
    ∧ (applyEvent ctx t (.heartbeat rl tc)).map (fun m => m.thinking)
        = t.map (fun m => m.thinking)
    ∧ (applyEvent ctx t (.heartbeat rl tc)).map (fun m => m.tool_use)
        = t.map (fun m => m.tool_use)
    ∧ (applyEvent ctx t (.heartbeat rl tc)).map
          (fun m => { m with lastHeartbeat := none, responseLength := none, toolCount := none })
        = t.map
          (fun m => { m with lastHeartbeat := none, responseLength := none, toolCount := none }) :=
  ⟨map_updateLastAssistantMessage t _ _ (fun _ => rfl),
   map_updateLastAssistantMessage t _ _ (fun _ => rfl),
   map_updateLastAssistantMessage t _ _ (fun _ => rfl),
   map_updateLastAssistantMessage t _ _ (fun _ => rfl)⟩

/-- C4: a tool_result event writes its string onto the positionally last
tool entry of the final assistant message, ignoring ids; in particular
after two tool_use_start events a single tool_result lands on the second
tool, not the first. -/
theorem tool_result_attaches_positionally_last (ctx : FoldCtx J)
    (t : List (ChatMessage J)) (m : ChatMessage J) (tools : List (ToolUse J))
    (r : String) (h1 : t.getLast? = some m) (h2 : m.role = Role.assistant)
    (h3 : m.tool_use = some tools) (h4 : tools ≠ []) :
    applyEvent ctx t (.tool_result r)
      = t.dropLast ++
        [{ m with tool_use := some (tools.dropLast ++
            [{ tools.getLast h4 with result := some r }]) }]
    ∧ applyEvent ctx
        (applyEvent ctx (applyEvent ctx [placeholderMsg ("0")]
            (.tool_use_start ("alpha") ("t1")))
          (.tool_use_start ("beta") ("t2")))
        (.tool_result ("found"))
      = [twoToolsMsg ctx (some ("found"))] := by
  constructor
  · rw [show applyEvent ctx t (.tool_result r)
          = updateLastAssistantMessage t (updaterOf ctx (.tool_result r)) from rfl,
      updateLastAssistantMessage_eq_of_getLast t m _ h1 h2]
    cases tools with
    | nil => exact absurd rfl h4
    | cons tu tus =>
      simp only [updaterOf, h3]
      rw [setResultOnLast_eq r (tu :: tus) (by simp)]
  · rfl

/-- Witness for C4: the two-tool scenario at concrete values, the result
landing on the second tool while the first keeps none. -/
theorem tool_result_attaches_positionally_last_witness :
    applyEvent ctxN [twoToolsMsg ctxN none] (.tool_result ("found"))
      = [twoToolsMsg ctxN (some ("found"))] := by
  have h := (tool_result_attaches_positionally_last ctxN [twoToolsMsg ctxN none]
    (twoToolsMsg ctxN none)
    [⟨"alpha", ctxN.emptyObj, none, some ("t1"), some (""), some ToolStatus.running⟩,
     ⟨"beta", ctxN.emptyObj, none, some ("t2"), some (""), some ToolStatus.running⟩]
    ("found") rfl rfl rfl (by simp)).1
  simpa [twoToolsMsg, ctxN] using h

/-- C10: a tool_input_delta whose tool id matches no entry of the final
assistant message leaves the transcript unchanged, whatever the parse. -/
theorem tool_input_delta_unmatched_id_noop (ctx : FoldCtx J)
    (t : List (ChatMessage J)) (m : ChatMessage J) (d : String)
    (tid : Option String) (h1 : t.getLast? = some m)
    (h2 : m.role = Role.assistant)
    (h3 : ∀ tu ∈ m.tool_use.getD [], (tu.id == tid) = false) :
    applyEvent ctx t (.tool_input_delta d tid) = t := by
  rw [show applyEvent ctx t (.tool_input_delta d tid)
        = updateLastAssistantMessage t (updaterOf ctx (.tool_input_delta d tid)) from rfl,
    updateLastAssistantMessage_eq_of_getLast t m _ h1 h2]
  have hupd : updaterOf ctx (.tool_input_delta d tid) m = m := by
    cases htu : m.tool_use with
    | none => simp only [updaterOf, htu]
    | some tools =>
      cases tools with
      | nil => simp only [updaterOf, htu]
      | cons tu tus =>
        simp only [updaterOf, htu]
        rw [updateFirstMatching_of_no_match _ _ (tu :: tus)
          (by intro x hx; exact h3 x (by rw [htu]; exact hx))]
        rw [← htu]
  rw [hupd]
  exact dropLast_append_of_getLast? t m h1

/-- Witness for C10: a delta addressed to an absent id leaves a concrete
one-tool transcript untouched. -/
theorem tool_input_delta_unmatched_id_noop_witness :
    applyEvent ctxN [oneToolMsg] (.tool_input_delta ("frag") (some ("zz")))
      = [oneToolMsg] :=
  tool_input_delta_unmatched_id_noop ctxN [oneToolMsg] oneToolMsg ("frag")
    (some ("zz")) rfl rfl (by decide)

/-- C3: after a send start and any folded event sequence, the genuine
error path removes exactly the two appended entries, restoring the
pre-send transcript, and surfaces the error with the streaming flag
lowered; the cancellation path keeps the whole transcript and only flips
the final assistant message's streaming flag to false. -/
theorem stream_error_rollback_cancel_preserve (ctx : FoldCtx J)
    (s : SessState J) (content ts1 ts2 emsg : String)
    (events : List (StreamEvent J)) :
    ∃ q : ChatMessage J,
      (foldChunks ctx (startSendOp content ts1 ts2 s) events).cache
          = s.cache ++ [userMsg content ts1, q]
      ∧ q.role = Role.assistant
      ∧ (streamFailOp emsg (foldChunks ctx (startSendOp content ts1 ts2 s) events)).cache
          = s.cache
      ∧ (streamFailOp emsg (foldChunks ctx (startSendOp content ts1 ts2 s) events)).errorMsg
          = some emsg
      ∧ (streamFailOp emsg (foldChunks ctx (startSendOp content ts1 ts2 s) events)).streaming
          = false
      ∧ (stopStreamingOp (foldChunks ctx (startSendOp content ts1 ts2 s) events)).cache
          = s.cache ++ [userMsg content ts1, { q with isStreaming := some false }]
      ∧ (stopStreamingOp (foldChunks ctx (startSendOp content ts1 ts2 s) events)).streaming
          = false := by
  obtain ⟨q, hq, hrole⟩ := foldChunks_cache_shape ctx events
    (startSendOp content ts1 ts2 s) s.cache (userMsg content ts1)
    (placeholderMsg ts2) rfl rfl
  have hsplit : s.cache ++ [userMsg content ts1, q]
      = (s.cache ++ [userMsg content ts1]) ++ [q] := by simp
  refine ⟨q, hq, hrole, ?_, rfl, rfl, ?_, rfl⟩
  · simp only [streamFailOp, hq]
    rw [if_pos (by simp), hsplit, List.dropLast_concat, List.dropLast_concat]
  · simp only [stopStreamingOp, hq]
    rw [hsplit, updateLastAssistantMessage_concat _ _ _ hrole]
    simp

/-- Counterexample for C1: starting a new send while the previous
placeholder is still marked streaming (the new send aborts the old stream
but nothing clears the old placeholder's flag) produces a transcript with
two streaming messages, the earlier one not last. -/
theorem double_send_breaks_streaming_invariant :
    ¬ streamInv (startSendOp ("b") ("3") ("4")
      (startSendOp ("a") ("1") ("2") (initSess Nat))).cache := by
  decide

/-- C1 amended: the fold of any decoded event, stop streaming and error
rollback each preserve the invariant that only the final message may be
marked streaming, and a send establishes it provided no message of the
prior transcript is still marked streaming; a send issued while the
previous placeholder is still streaming violates it. -/
theorem streaming_invariant_preservation (ctx : FoldCtx J) (s : SessState J)
    (e : StreamEvent J) (emsg content ts1 ts2 : String) :
    (streamInv s.cache → streamInv (foldChunkOp ctx s e).cache)
    ∧ (streamInv s.cache → streamInv (stopStreamingOp s).cache)
    ∧ (streamInv s.cache → streamInv (streamFailOp emsg s).cache)
    ∧ ((∀ m ∈ s.cache, ¬ isStreamingTrue m) →
        streamInv (startSendOp content ts1 ts2 s).cache) := by
  refine ⟨?_, ?_, ?_, ?_⟩
  · intro h
    cases e <;> simp only [foldChunkOp, applyEvent] <;>
      first
        | exact h
        | exact streamInv_updateLast _ _ h
  · intro h
    exact streamInv_updateLast _ _ h
  · intro h
    show streamInv (if 2 ≤ s.cache.length then s.cache.dropLast.dropLast else s.cache)
    split
    · exact streamInv_dropLast _ (streamInv_dropLast _ h)
    · exact h
  · intro h x hx
    have hsp : s.cache ++ [userMsg content ts1, placeholderMsg ts2]
        = (s.cache ++ [userMsg content ts1]) ++ [placeholderMsg ts2] := by simp
    simp only [startSendOp] at hx
    rw [hsp, List.dropLast_concat] at hx
    rcases List.mem_append.mp hx with h1 | h2
    · exact h x h1
    · have hxu : x = userMsg content ts1 := by simpa using h2
      rw [hxu]
      simp [isStreamingTrue, userMsg]

/-- Witness for C1 amended: the preserved invariant at concrete states,
including a send started on a transcript with no streaming message. -/
theorem streaming_invariant_preservation_witness :
    streamInv (foldChunkOp ctxN (startSendOp ("a") ("1") ("2") (initSess Nat))
        StreamEvent.done).cache
    ∧ streamInv (stopStreamingOp (startSendOp ("a") ("1") ("2") (initSess Nat))).cache
    ∧ streamInv (streamFailOp ("boom") (startSendOp ("a") ("1") ("2") (initSess Nat))).cache
    ∧ streamInv (startSendOp ("hello") ("1") ("2") (initSess Nat)).cache := by
  have h := streaming_invariant_preservation ctxN
    (startSendOp ("a") ("1") ("2") (initSess Nat)) StreamEvent.done ("boom")
    ("hello") ("1") ("2")
  have h2 := streaming_invariant_preservation ctxN (initSess Nat)
    StreamEvent.done ("boom") ("hello") ("1") ("2")
  exact ⟨h.1 (by decide), h.2.1 (by decide), h.2.2.1 (by decide),
    h2.2.2.2 (by decide)⟩

/-- Counterexample for C7: a history fetch issued by selecting the
session while it was idle can land after a stream turn has begun; the
arrival races the in-flight stream and overwrites the stream's appended
user message and placeholder with the fetched history. -/
theorem stale_fetch_overwrites_streaming_cache :
    traceHasRace ctxN (uiInit Nat)
        [UiOp.select [oneToolMsg], UiOp.streamBegin ("hi") ("1") ("2"),
          UiOp.fetchArrive] = true
    ∧ (List.foldl (uiStep ctxN) (uiInit Nat)
        [UiOp.select [oneToolMsg], UiOp.streamBegin ("hi") ("1") ("2")]).cache
      = [userMsg ("hi") ("1"), placeholderMsg ("2")]
    ∧ (List.foldl (uiStep ctxN) (uiInit Nat)
        [UiOp.select [oneToolMsg], UiOp.streamBegin ("hi") ("1") ("2"),
          UiOp.fetchArrive]).cache
      = [oneToolMsg] :=
  ⟨by decide, by decide, by decide⟩

/-- C7 amended: selecting a session whose streaming flag is set exposes
the cached transcript as-is and issues no history fetch — the step is the
identity on the whole UI state; the no-race half of the original claim
fails for a fetch issued earlier while the session was idle. -/
theorem select_while_streaming_reads_cache_only (ctx : FoldCtx J)
    (s : UiState J) (response : List (ChatMessage J))
    (h : s.streamingFlag = true) :
    uiStep ctx s (.select response) = s := by
  simp [uiStep, h]

/-- Witness for C7 amended: selecting a concrete streaming session leaves
its partially built cache and fetch state untouched. -/
theorem select_while_streaming_reads_cache_only_witness :
    uiStep ctxN ⟨[placeholderMsg ("2")], true, none⟩ (.select [oneToolMsg])
      = ⟨[placeholderMsg ("2")], true, none⟩ :=
  select_while_streaming_reads_cache_only ctxN ⟨[placeholderMsg ("2")], true, none⟩
    [oneToolMsg] rfl

/-- C2, evaluated at the failing input: when every attempt hits the
per-attempt timeout, the client throws the timeout error (status 408,
flagged retryable) after a single attempt, with no backoff delay and no
retry, although the default budget would allow three attempts. -/
theorem fetchApi_timeout_thrown_without_retry :
    fetchApi (R := Nat) (fun _ => AttemptOutcome.abortTimeout)
      = ⟨Except.error ⟨"Request timeout", 408, true⟩, [], 1⟩
    ∧ MAX_RETRIES + 1 = 3 :=
  ⟨rfl, rfl⟩

/-- C6: with the default budget, a call whose attempts answer 503, 503
then 200 returns the decoded success with the exponential backoff delays
500 then 1000 between attempts; a call answering 404 is thrown at once as
a non-retryable typed error after a single attempt. -/
theorem fetchApi_retry_503_then_ok_and_404_no_retry (R : Type) (b : R)
    (f g : Nat → AttemptOutcome R) (d0 d1 d2 : Option String)
    (h0 : f 0 = .httpError 503 d0) (h1 : f 1 = .httpError 503 d1)
    (h2 : f 2 = .success b) (hg : g 0 = .httpError 404 d2) :
    fetchApi f = ⟨Except.ok b, [500, 1000], 3⟩
    ∧ fetchApi g
      = ⟨Except.error ⟨d2.getD ("HTTP " ++ toString 404), 404, false⟩, [], 1⟩ := by
  constructor
  · show runAttempts f 0 2 = _
    rw [runAttempts.eq_def, h0]
    norm_num
    rw [runAttempts.eq_def, h1]
    norm_num
    rw [runAttempts.eq_def, h2]
    simp
  · show runAttempts g 0 2 = _
    rw [runAttempts.eq_def, hg]
    norm_num

/-- Witness for C6: concrete attempt schedules for each half. -/
theorem fetchApi_retry_503_then_ok_and_404_no_retry_witness :
    fetchApi (fun n => if n = 0 then AttemptOutcome.httpError 503 none
        else if n = 1 then AttemptOutcome.httpError 503 none
        else AttemptOutcome.success (7 : Nat))
      = ⟨Except.ok 7, [500, 1000], 3⟩
    ∧ fetchApi (R := Nat) (fun _ => AttemptOutcome.httpError 404 (some ("not found")))
      = ⟨Except.error ⟨"not found", 404, false⟩, [], 1⟩ := by
  have h := fetchApi_retry_503_then_ok_and_404_no_retry Nat 7
    (fun n => if n = 0 then AttemptOutcome.httpError 503 none
      else if n = 1 then AttemptOutcome.httpError 503 none
      else AttemptOutcome.success (7 : Nat))
    (fun _ => AttemptOutcome.httpError 404 (some ("not found")))
    none none (some ("not found")) rfl rfl rfl rfl
  exact ⟨h.1, by simpa using h.2⟩

end Mercy
